import Mathlib

/-
Verification of the bininps sampling / edge-detection / pulse-counting core
(src/bininps/bininps.cpp).  The globals mutated by the sketch are gathered in
a `DeviceState` record; `updateValues`, `updtBinInputs`, `updtCounters`, the
relevant tail of `setup` and the body of `loop` are translated directly from
the source.  Machine integers are modelled as `Nat`/`Int`; the 32-bit
`unsigned long` counters wrap with an explicit `% 2 ^ 32`.
-/

namespace Bininps

/-- Arduino logic level HIGH, the integer value compared against a sampled bit. -/
def HIGH : Int := 1

/-- Value produced by `bitRead` for a sampled physical level, as the `int` the
sketch stores in its `lastState...` arrays. -/
def levelToInt (b : Bool) : Int := if b then 1 else 0

/-- The globals of bininps.cpp mutated by the sampling core:
`stateLowByte`/`stateHighByte` (line 130), `lastStateBinary` (line 137),
`lastStateCount` (line 145) and `counter` (line 144). -/
structure DeviceState where
  stateLowByte : Nat
  stateHighByte : Nat
  lastStateBinary : List Int
  lastStateCount : List Int
  counter : List Nat
deriving DecidableEq

/-- Initial values of the globals: state bytes 0, eight binary lines and four
counter lines at the unknown sentinel -1, four counters at 0. -/
def initState : DeviceState :=
  { stateLowByte := 0
    stateHighByte := 0
    lastStateBinary := List.replicate 8 (-1)
    lastStateCount := List.replicate 4 (-1)
    counter := List.replicate 4 0 }

/-- Body of the first loop of `updateValues` (lines 186-190) for one binary-only
line: if the sampled level differs from the stored one, store it and set the
result byte to 1; otherwise leave both alone. -/
def binBody (last : Int) (level : Bool) (res : Nat) : Int × Nat :=
  let state := levelToInt level
  if last ≠ state then (state, 1) else (last, res)

/-- First loop of `updateValues` (lines 182-191) over the binary-only lines,
threading the stored levels and the result byte.  The source iterates over
arrays of equal fixed length 8; the trailing cases cover list-length mismatch
that never occurs on the device and leave the state untouched. -/
def binLoop : List Int → List Bool → Nat → List Int × Nat
  | l :: ls, v :: vs, res =>
      let b := binBody l v res
      let rest := binLoop ls vs b.2
      (b.1 :: rest.1, rest.2)
  | [], _, res => ([], res)
  | l :: ls, [], res => (l :: ls, res)

/-- Body of the second loop of `updateValues` (lines 198-210) for one counter
line: on a level change, raise the result byte from 0 to 1, store the new
level, and when the new level is HIGH increment the 32-bit counter (wrapping)
and set the result byte to 2. -/
def countBody (last : Int) (cnt : Nat) (level : Bool) (res : Nat) : Int × Nat × Nat :=
  let state := levelToInt level
  if last ≠ state then
    if state = HIGH then (state, (cnt + 1) % 2 ^ 32, 2)
    else (state, cnt, if res = 0 then 1 else res)
  else (last, cnt, res)

/-- Second loop of `updateValues` (lines 194-211) over the counter lines,
threading stored levels, counters and the result byte.  The source iterates
over arrays of equal fixed length 4; the trailing cases cover list-length
mismatch that never occurs on the device. -/
def countLoop : List Int → List Nat → List Bool → Nat → List Int × List Nat × Nat
  | l :: ls, c :: cs, v :: vs, res =>
      let b := countBody l c v res
      let rest := countLoop ls cs vs b.2.2
      (b.1 :: rest.1, b.2.1 :: rest.2.1, rest.2.2)
  | [], cs, _, res => ([], cs, res)
  | l :: ls, [], _, res => (l :: ls, [], res)
  | l :: ls, c :: cs, [], res => (l :: ls, c :: cs, res)

/-- Byte accumulated by `state << i` across a loop (lines 185 and 197): bit i
of the result is the sampled level of line i. -/
def packBits : List Bool → Nat
  | [] => 0
  | v :: vs => (if v then 1 else 0) + 2 * packBits vs

/-- Translation of `updateValues` (lines 176-214): rebuild the packed state
bytes from the freshly sampled levels, run the binary loop then the counter
loop, and return the updated globals together with the result byte
(0 no change, 1 only binary states changed, 2 states and counters changed). -/
def updateValues (s : DeviceState) (binIn cntIn : List Bool) : DeviceState × Nat :=
  let b := binLoop s.lastStateBinary binIn 0
  let k := countLoop s.lastStateCount s.counter cntIn b.2
  ({ stateLowByte := packBits binIn
     stateHighByte := packBits cntIn
     lastStateBinary := b.1
     lastStateCount := k.1
     counter := k.2.1 }, k.2.2)

/-- Translation of `updtBinInputs` (lines 387-392): the 2-byte register holds
`stateHighByte` (packed counter-line levels) in byte 0 and `stateLowByte`
(packed binary-only levels) in byte 1. -/
def updtBinInputs (s : DeviceState) : List Nat :=
  [s.stateHighByte, s.stateLowByte]

/-- Translation of `updtCounters` (lines 401-411): for i, j in 0..3 the byte at
position i*4+j of the 16-byte register is `(counter[3-i] >> 8*(3-j)) & 0xFF`. -/
def updtCounters (s : DeviceState) : List Nat :=
  (List.range 4).flatMap fun i =>
    (List.range 4).map fun j => (s.counter.getD (3 - i) 0 >>> (8 * (3 - j))) % 256

/-- Observable actions of the core towards the register/radio layer:
a call of `updateValues` (a sample pass) or a `getData` transmission of one of
the two registers, carrying the serialized bytes. -/
inductive Event where
  | sample : Event
  | publishBinInputs : List Nat → Event
  | publishCounters : List Nat → Event
deriving DecidableEq

/-- Recognizer for the sample-pass event. -/
def Event.isSample : Event → Bool
  | .sample => true
  | _ => false

/-- Recognizer for a binary-state transmission event. -/
def Event.isPubBin : Event → Bool
  | .publishBinInputs _ => true
  | _ => false

/-- Recognizer for a counter transmission event. -/
def Event.isPubCnt : Event → Bool
  | .publishCounters _ => true
  | _ => false

/-- The switch of `loop` (lines 291-302) on the byte returned by
`updateValues`: case 2 transmits the counters and falls through to case 1,
which transmits the binary states; the default case transmits nothing.  The
leading `sample` event records the `updateValues` call itself. -/
def loopPublishes (s2 : DeviceState) (res : Nat) : List Event :=
  match res with
  | 2 => [Event.sample, Event.publishCounters (updtCounters s2),
          Event.publishBinInputs (updtBinInputs s2)]
  | 1 => [Event.sample, Event.publishBinInputs (updtBinInputs s2)]
  | _ => [Event.sample]

/-- Translation of the body of `loop` (lines 282-315) after waking: with the
interrupt flag `pcIRQ` set, run `updateValues` and publish according to the
switch; with the flag clear (pure timer wake), transmit the counters and the
binary states from the stored globals without any sample pass.  The sampled
levels `binIn`/`cntIn` are the levels the pins would deliver this cycle; in
the timer branch the code never reads them. -/
def loopStep (s : DeviceState) (pcIRQ : Bool) (binIn cntIn : List Bool) :
    DeviceState × List Event :=
  if pcIRQ then
    ((updateValues s binIn cntIn).1,
      loopPublishes (updateValues s binIn cntIn).1 (updateValues s binIn cntIn).2)
  else
    (s, [Event.publishCounters (updtCounters s), Event.publishBinInputs (updtBinInputs s)])

/-- Translation of the sampling tail of `setup` (lines 264-268): one call of
`updateValues` whose returned classification is discarded, then a `getData`
transmission of the binary-input register and of the counter register.  The
earlier part of `setup` (radio init, LED blink, product/interval/voltage
transmissions) performs no sample pass and no binary/counter transmission. -/
def setupSample (s : DeviceState) (binIn cntIn : List Bool) : DeviceState × List Event :=
  let u := updateValues s binIn cntIn
  (u.1, [Event.sample, Event.publishBinInputs (updtBinInputs u.1),
         Event.publishCounters (updtCounters u.1)])

/-- Result bytes produced by feeding one counter line a sequence of levels,
one sample cycle per list element, each cycle starting from result byte 0 as
`updateValues` does: entry 2 marks a cycle whose transition incremented the
counter, entry 1 a level change without increment, entry 0 no change. -/
def lineResults : Int → Nat → List Bool → List Nat
  | _, _, [] => []
  | last, cnt, v :: vs =>
      (countBody last cnt v 0).2.2 :: lineResults (countBody last cnt v 0).1 (countBody last cnt v 0).2.1 vs

/-- Stored level and counter of one counter line after feeding it a sequence of
levels, one sample cycle per list element. -/
def feedLine : Int → Nat → List Bool → Int × Nat
  | last, cnt, [] => (last, cnt)
  | last, cnt, v :: vs => feedLine (countBody last cnt v 0).1 (countBody last cnt v 0).2.1 vs

/-- Successive values of counter i across a run of sample cycles, one
`updateValues` pass per input pair (binary levels, counter levels). -/
def counterTrace : DeviceState → Nat → List (List Bool × List Bool) → List Nat
  | s, i, [] => [s.counter.getD i 0]
  | s, i, p :: rest => s.counter.getD i 0 :: counterTrace (updateValues s p.1 p.2).1 i rest

/-- Relation between the values of one counter on two consecutive cycles:
unchanged, incremented by exactly 1 below the 32-bit bound, or wrapped from
the 32-bit maximum to 0. -/
def counterStep (a b : Nat) : Prop :=
  b = a ∨ (b = a + 1 ∧ a + 1 < 2 ^ 32) ∨ (a + 1 = 2 ^ 32 ∧ b = 0)

/-- Staged edge-detection pass over the counter lines as the spec describes it
(section 4.3 step 2): update every stored level before any counting happens.
Named after the spec, for comparison with the fused loop of the source. -/
def specDetectPhase : List Int → List Bool → List Int
  | l :: ls, v :: vs =>
      (if l ≠ levelToInt v then levelToInt v else l) :: specDetectPhase ls vs
  | ls, _ => ls

/-- Staged counting pass over the counter lines as the spec describes it
(section 4.3 step 3): increment exactly the counters whose line changed level
into HIGH, judged from the levels stored before this cycle.  Named after the
spec, for comparison with the fused loop of the source. -/
def specCountPhase : List Int → List Nat → List Bool → List Nat
  | l :: ls, c :: cs, v :: vs =>
      (if l ≠ levelToInt v ∧ levelToInt v = HIGH then (c + 1) % 2 ^ 32 else c) ::
        specCountPhase ls cs vs
  | _, cs, _ => cs

/-- Device state after an initial all-low sample pass, used to exhibit a stale
timer-wake publication. -/
def c4State : DeviceState :=
  (updateValues initState (List.replicate 8 false) (List.replicate 4 false)).1

/-- Fresh binary levels with line 0 raised, presented on a later timer wake. -/
def c4Bin : List Bool := true :: List.replicate 7 false

/-- C9: on the very first sample pass after initialization, a counter line
whose first observed level is HIGH is counted: the transition out of the -1
sentinel into HIGH increments its counter from 0 to 1 and classifies the cycle
as 2, even though no low-to-high pulse occurred. -/
theorem first_sample_high_counts_pulse :
    (updateValues initState (List.replicate 8 false) [true, false, false, false]).1.counter
      = [1, 0, 0, 0] ∧
    (updateValues initState (List.replicate 8 false) [true, false, false, false]).2 = 2 ∧
    countBody (-1) 0 true 0 = (HIGH, 1, 2) := by
  refine ⟨by decide, by decide, by decide⟩

/-- C1: with active polarity HIGH and a stored level 0, the level sequence
[0,0,1,1,0,1] over six cycles increments the counter exactly twice: result
byte 2 exactly at indices 2 and 5 (the two 0-to-1 transitions), result 1 at
the 1-to-0 transition (change, no increment), result 0 at repeated levels,
and the counter ends two increments (mod 2^32) above its start, for any
starting value c. -/
theorem counter_single_increment_per_transition (c : Nat) :
    lineResults 0 c [false, false, true, true, false, true] = [0, 0, 2, 0, 1, 2] ∧
    feedLine 0 c [false, false, true, true, false, true]
      = (HIGH, ((c + 1) % 2 ^ 32 + 1) % 2 ^ 32) := by
  exact ⟨rfl, rfl⟩

/-- The result byte of the binary loop is 1 when some stored level changed and
the incoming byte otherwise. -/
theorem binLoop_res (ls : List Int) (vs : List Bool) (r : Nat) :
    (binLoop ls vs r).2 = if (binLoop ls vs r).1 = ls then r else 1 := by
  induction ls generalizing vs r with
  | nil => cases vs <;> simp [binLoop]
  | cons l ls ih =>
    cases vs with
    | nil => simp [binLoop]
    | cons v vs =>
      by_cases h : l = levelToInt v
      · have hb : binBody l v r = (l, r) := by
          simp [binBody, h]
        simp only [binLoop, hb]
        have := ih vs r
        simp only [List.cons.injEq, true_and]
        exact this
      · have hb : binBody l v r = (levelToInt v, 1) := by
          simp [binBody, h]
        simp only [binLoop, hb]
        have := ih vs 1
        have hne : levelToInt v ≠ l := fun he => h he.symm
        simp only [List.cons.injEq, hne, false_and, if_false]
        rcases ite_eq_or_eq ((binLoop ls vs 1).1 = ls) 1 1 with he | he <;>
          rw [this, he]

/-- Unfolded form of `countBody`, convenient for case splits. -/
theorem countBody_eq (l : Int) (c : Nat) (v : Bool) (r : Nat) :
    countBody l c v r =
      if l ≠ levelToInt v then
        (if levelToInt v = HIGH then (levelToInt v, (c + 1) % 2 ^ 32, 2)
         else (levelToInt v, c, if r = 0 then 1 else r))
      else (l, c, r) := rfl

/-- Once the result byte reaches 2 it stays 2 through the rest of the counter
loop. -/
theorem countLoop_res_two (ls : List Int) (cs : List Nat) (vs : List Bool) :
    (countLoop ls cs vs 2).2.2 = 2 := by
  induction ls generalizing cs vs with
  | nil => cases cs <;> cases vs <;> simp [countLoop]
  | cons l ls ih =>
    cases cs with
    | nil => cases vs <;> simp [countLoop]
    | cons c cs =>
      cases vs with
      | nil => simp [countLoop]
      | cons v vs =>
        have hb : (countBody l c v 2).2.2 = 2 := by
          rw [countBody_eq]
          split_ifs <;> simp_all
        simp only [countLoop, hb]
        exact ih cs vs

/-- An incremented counter never keeps its old value. -/
theorem succ_mod_ne (c : Nat) : (c + 1) % 2 ^ 32 ≠ c := by
  intro h
  omega

/-- Characterization of the result byte of the counter loop, for incoming
bytes 0 and 1 (the only values the binary loop can deliver): 2 when some
counter was incremented, otherwise 1 when some stored level changed, otherwise
the incoming byte. -/
theorem countLoop_res (ls : List Int) (cs : List Nat) (vs : List Bool) (r : Nat)
    (hr : r = 0 ∨ r = 1) :
    (countLoop ls cs vs r).2.2 =
      if (countLoop ls cs vs r).2.1 = cs then
        (if (countLoop ls cs vs r).1 = ls then r else 1)
      else 2 := by
  induction ls generalizing cs vs r with
  | nil => cases cs <;> cases vs <;> simp [countLoop]
  | cons l ls ih =>
    cases cs with
    | nil => cases vs <;> simp [countLoop]
    | cons c cs =>
      cases vs with
      | nil => simp [countLoop]
      | cons v vs =>
        by_cases h : l = levelToInt v
        · have hb : countBody l c v r = (l, c, r) := by
            rw [countBody_eq]
            simp [h]
          simp only [countLoop, hb]
          have := ih cs vs r hr
          simp only [List.cons.injEq, true_and]
          exact this
        · cases v with
          | true =>
            have hb : countBody l c true r = (HIGH, (c + 1) % 2 ^ 32, 2) := by
              rw [countBody_eq]
              have h1 : l ≠ levelToInt true := h
              simp [levelToInt, HIGH] at h1 ⊢
              simp [h1]
            simp only [countLoop, hb]
            have h2 := countLoop_res_two ls cs vs
            have hne : (c + 1) % 2 ^ 32 ≠ c := succ_mod_ne c
            simp only [List.cons.injEq, hne, false_and, if_false]
            exact h2
          | false =>
            have hr1 : (if r = 0 then 1 else r) = 1 := by
              rcases hr with h1 | h1 <;> simp [h1]
            have hb : countBody l c false r = (0, c, 1) := by
              rw [countBody_eq]
              have h1 : l ≠ levelToInt false := h
              simp [levelToInt, HIGH] at h1 ⊢
              simp [h1, hr1]
            simp only [countLoop, hb]
            have := ih cs vs 1 (Or.inr rfl)
            have hne : (0 : Int) ≠ l := by
              intro he
              exact h (by simp [levelToInt, ← he])
            simp only [List.cons.injEq, hne, false_and, if_false]
            rw [this]
            simp

/-- C2: the classification returned by `updateValues` is 2 exactly when some
counter value changed this cycle (even if an unrelated binary-only line also
changed), 1 when no counter changed but some stored level (binary-only or
counter) changed, and 0 when nothing changed. -/
theorem updateValues_classification (s : DeviceState) (binIn cntIn : List Bool) :
    (updateValues s binIn cntIn).2 =
      if (updateValues s binIn cntIn).1.counter = s.counter then
        (if (updateValues s binIn cntIn).1.lastStateBinary = s.lastStateBinary ∧
            (updateValues s binIn cntIn).1.lastStateCount = s.lastStateCount
         then 0 else 1)
      else 2 := by
  have hbin := binLoop_res s.lastStateBinary binIn 0
  have hr : (binLoop s.lastStateBinary binIn 0).2 = 0 ∨
      (binLoop s.lastStateBinary binIn 0).2 = 1 := by
    rw [hbin]
    rcases ite_eq_or_eq ((binLoop s.lastStateBinary binIn 0).1 = s.lastStateBinary)
      (0 : Nat) 1 with h | h
    · exact Or.inl h
    · exact Or.inr h
  have hcnt := countLoop_res s.lastStateCount s.counter cntIn
    (binLoop s.lastStateBinary binIn 0).2 hr
  show (countLoop s.lastStateCount s.counter cntIn (binLoop s.lastStateBinary binIn 0).2).2.2 =
    if (countLoop s.lastStateCount s.counter cntIn
          (binLoop s.lastStateBinary binIn 0).2).2.1 = s.counter then
      (if (binLoop s.lastStateBinary binIn 0).1 = s.lastStateBinary ∧
          (countLoop s.lastStateCount s.counter cntIn
            (binLoop s.lastStateBinary binIn 0).2).1 = s.lastStateCount
       then 0 else 1)
    else 2
  by_cases hb : (binLoop s.lastStateBinary binIn 0).1 = s.lastStateBinary
  · have h0 : (binLoop s.lastStateBinary binIn 0).2 = 0 := by rw [hbin, if_pos hb]
    rw [h0] at hcnt ⊢
    rw [hcnt]
    by_cases hc : (countLoop s.lastStateCount s.counter cntIn 0).2.1 = s.counter <;>
      by_cases hl : (countLoop s.lastStateCount s.counter cntIn 0).1 = s.lastStateCount <;>
      simp [hb, hc, hl]
  · have h0 : (binLoop s.lastStateBinary binIn 0).2 = 1 := by rw [hbin, if_neg hb]
    rw [h0] at hcnt ⊢
    rw [hcnt]
    by_cases hc : (countLoop s.lastStateCount s.counter cntIn 1).2.1 = s.counter <;>
      by_cases hl : (countLoop s.lastStateCount s.counter cntIn 1).1 = s.lastStateCount <;>
      simp [hb, hc, hl]

/-- C3: on a timer wake (interrupt flag clear) the loop transmits the counters
and then the binary states from the stored globals, unconditionally and with
no sample pass; on an interrupt wake it runs `updateValues` and publishes
exactly per the returned classification: 2 transmits counters then binary
states, 1 transmits binary states only, anything else transmits nothing. -/
theorem loop_publish_behavior (s : DeviceState) (binIn cntIn : List Bool) :
    loopStep s false binIn cntIn =
      (s, [Event.publishCounters (updtCounters s),
           Event.publishBinInputs (updtBinInputs s)]) ∧
    loopStep s true binIn cntIn =
      ((updateValues s binIn cntIn).1,
        if (updateValues s binIn cntIn).2 = 2 then
          [Event.sample,
           Event.publishCounters (updtCounters (updateValues s binIn cntIn).1),
           Event.publishBinInputs (updtBinInputs (updateValues s binIn cntIn).1)]
        else if (updateValues s binIn cntIn).2 = 1 then
          [Event.sample,
           Event.publishBinInputs (updtBinInputs (updateValues s binIn cntIn).1)]
        else [Event.sample]) := by
  refine ⟨rfl, ?_⟩
  rcases hres : (updateValues s binIn cntIn).2 with _ | _ | _ | k <;>
    simp [loopStep, loopPublishes, hres]

/-- C4 fails on the code: on a timer wake the loop makes its publish calls
without invoking the sample pass, and the published binary states are the
bytes stored by the previous sample pass, not a fresh read.  Here the stored
state has every line low, the physical level of binary line 0 has risen to
HIGH, yet the timer-wake cycle publishes both registers with no sample event
and with binary-state bytes [0, 0]; a sample pass on the same levels would
have published [0, 1]. -/
theorem loop_timer_skips_sample_cex :
    (loopStep c4State false c4Bin (List.replicate 4 false)).2 =
      [Event.publishCounters (List.replicate 16 0), Event.publishBinInputs [0, 0]] ∧
    Event.sample ∉ (loopStep c4State false c4Bin (List.replicate 4 false)).2 ∧
    (loopStep c4State false c4Bin (List.replicate 4 false)).1 = c4State ∧
    updtBinInputs (updateValues c4State c4Bin (List.replicate 4 false)).1 = [0, 1] := by
  refine ⟨by decide, by decide, by decide, by decide⟩

/-- C4 amended: the sample pass precedes the publish decision only on
interrupt wakes, where it is the first recorded action; on a pure timer wake
no sample pass runs, the device state is untouched, and the previously stored
binary states and counters are republished as-is. -/
theorem loop_sample_only_on_interrupt (s : DeviceState) (binIn cntIn : List Bool) :
    (loopStep s true binIn cntIn).2.head? = some Event.sample ∧
    (loopStep s true binIn cntIn).1 = (updateValues s binIn cntIn).1 ∧
    loopStep s false binIn cntIn =
      (s, [Event.publishCounters (updtCounters s),
           Event.publishBinInputs (updtBinInputs s)]) ∧
    Event.sample ∉ (loopStep s false binIn cntIn).2 := by
  refine ⟨?_, rfl, rfl, by simp [loopStep]⟩
  rcases hres : (updateValues s binIn cntIn).2 with _ | _ | _ | k <;>
    simp [loopStep, loopPublishes, hres]

/-- C6: edge detection is idempotent per line.  For a binary-only line, the
detection body run from result byte 0 reports 1 exactly when the sampled level
differs from the stored one, always leaves the stored level equal to the
sampled level, and a second run at the same level reports no change and
leaves the state unmodified; an unchanged level leaves state and result byte
untouched.  The same holds for the counter-line body, which additionally
leaves the counter alone on the second run. -/
theorem edge_detection_idempotent (last : Int) (cnt : Nat) (L : Bool) (r : Nat) :
    ((binBody last L 0).2 = 1 ↔ last ≠ levelToInt L) ∧
    (binBody last L 0).1 = levelToInt L ∧
    binBody (binBody last L 0).1 L 0 = (levelToInt L, 0) ∧
    (last = levelToInt L → binBody last L r = (last, r)) ∧
    (countBody last cnt L 0).1 = levelToInt L ∧
    countBody (countBody last cnt L 0).1 (countBody last cnt L 0).2.1 L 0 =
      (levelToInt L, (countBody last cnt L 0).2.1, 0) ∧
    (last = levelToInt L → countBody last cnt L r = (last, cnt, r)) := by
  by_cases h : last = levelToInt L
  · refine ⟨by simp [binBody, h], by simp [binBody, h], by simp [binBody, h], ?_, ?_, ?_, ?_⟩
    · intro _
      simp [binBody, h]
    · rw [countBody_eq]
      simp [h]
    · rw [countBody_eq, countBody_eq]
      simp [h]
    · intro _
      rw [countBody_eq]
      simp [h]
  · have h1 : (binBody last L 0) = (levelToInt L, 1) := by simp [binBody, h]
    refine ⟨by simp [h1, h], by simp [h1], by simp [binBody, h], fun he => absurd he h, ?_, ?_,
      fun he => absurd he h⟩
    · rw [countBody_eq]
      by_cases h2 : levelToInt L = HIGH
      · have h3 : last ≠ HIGH := fun he => h (he.trans h2.symm)
        simp [h, h2, h3]
      · simp [h, h2]
    · rw [countBody_eq, countBody_eq]
      by_cases h2 : levelToInt L = HIGH
      · have h3 : last ≠ HIGH := fun he => h (he.trans h2.symm)
        simp [h, h2, h3]
      · simp [h, h2]

/-- C6 witness at a concrete input: stored level 0, sampled level HIGH,
counter 5, incoming result byte 3. -/
theorem edge_detection_idempotent_witness :
    (((binBody 0 true 0).2 = 1 ↔ (0 : Int) ≠ levelToInt true) ∧
    (binBody 0 true 0).1 = levelToInt true ∧
    binBody (binBody 0 true 0).1 true 0 = (levelToInt true, 0) ∧
    ((0 : Int) = levelToInt true → binBody 0 true 3 = (0, 3)) ∧
    (countBody 0 5 true 0).1 = levelToInt true ∧
    countBody (countBody 0 5 true 0).1 (countBody 0 5 true 0).2.1 true 0 =
      (levelToInt true, (countBody 0 5 true 0).2.1, 0) ∧
    ((0 : Int) = levelToInt true → countBody 0 5 true 3 = (0, 5, 3))) :=
  edge_detection_idempotent 0 5 true 3

/-- C7: the sampling tail of `setup` performs exactly one sample pass and then
transmits the binary states and the counters exactly once each, in that
order, unconditionally: the event trace is fixed and never consults the
classification returned by the sample pass. -/
theorem setup_bootstrap_report (s : DeviceState) (binIn cntIn : List Bool) :
    setupSample s binIn cntIn =
      ((updateValues s binIn cntIn).1,
        [Event.sample,
         Event.publishBinInputs (updtBinInputs (updateValues s binIn cntIn).1),
         Event.publishCounters (updtCounters (updateValues s binIn cntIn).1)]) ∧
    (setupSample s binIn cntIn).2.countP Event.isSample = 1 ∧
    (setupSample s binIn cntIn).2.countP Event.isPubBin = 1 ∧
    (setupSample s binIn cntIn).2.countP Event.isPubCnt = 1 ∧
    (setupSample s binIn cntIn).2.head? = some Event.sample := by
  refine ⟨rfl, ?_, ?_, ?_, rfl⟩ <;>
    simp [setupSample, List.countP, List.countP.go, Event.isSample, Event.isPubBin, Event.isPubCnt]

/-- Each counter leaving the counter loop is the entering value or that value
incremented once modulo 2^32. -/
theorem countLoop_getD_step (ls : List Int) (cs : List Nat) (vs : List Bool) (r : Nat)
    (i : Nat) :
    (countLoop ls cs vs r).2.1.getD i 0 = cs.getD i 0 ∨
    (countLoop ls cs vs r).2.1.getD i 0 = (cs.getD i 0 + 1) % 2 ^ 32 := by
  induction ls generalizing cs vs r i with
  | nil => cases cs <;> cases vs <;> simp [countLoop]
  | cons l ls ih =>
    cases cs with
    | nil => cases vs <;> simp [countLoop]
    | cons c cs =>
      cases vs with
      | nil => simp [countLoop]
      | cons v vs =>
        simp only [countLoop]
        cases i with
        | zero =>
          simp only [List.getD_cons_zero]
          rw [countBody_eq]
          split_ifs <;> simp
        | succ i =>
          simp only [List.getD_cons_succ]
          exact ih cs vs (countBody l c v r).2.2 i

/-- The counter loop preserves the 32-bit bound on every counter. -/
theorem countLoop_counters_lt (ls : List Int) (cs : List Nat) (vs : List Bool) (r : Nat)
    (h : ∀ x ∈ cs, x < 2 ^ 32) :
    ∀ x ∈ (countLoop ls cs vs r).2.1, x < 2 ^ 32 := by
  induction ls generalizing cs vs r with
  | nil => cases cs <;> cases vs <;> exact h
  | cons l ls ih =>
    cases cs with
    | nil => cases vs <;> simp [countLoop]
    | cons c cs =>
      cases vs with
      | nil => exact h
      | cons v vs =>
        simp only [countLoop, List.mem_cons]
        intro x hx
        rcases hx with hx | hx
        · have hc : c < 2 ^ 32 := h c (List.mem_cons_self c cs)
          have : (countBody l c v r).2.1 = c ∨
              (countBody l c v r).2.1 = (c + 1) % 2 ^ 32 := by
            rw [countBody_eq]
            split_ifs <;> simp
          rcases this with he | he <;> rw [hx, he]
          · exact hc
          · exact Nat.mod_lt _ (by norm_num)
        · exact ih cs vs (countBody l c v r).2.2 (fun y hy => h y (List.mem_cons_of_mem c hy)) x hx

/-- A getD read of a list of 32-bit-bounded counters is 32-bit bounded. -/
theorem getD_lt_of_forall (cs : List Nat) (h : ∀ x ∈ cs, x < 2 ^ 32) (i : Nat) :
    cs.getD i 0 < 2 ^ 32 := by
  induction cs generalizing i with
  | nil => simp
  | cons c cs ih =>
    cases i with
    | zero => simpa using h c (List.mem_cons_self c cs)
    | succ i => simpa using ih (fun y hy => h y (List.mem_cons_of_mem c hy)) i

/-- The trace of a counter across a run always starts with its current value. -/
theorem counterTrace_head (s : DeviceState) (i : Nat)
    (inps : List (List Bool × List Bool)) :
    (counterTrace s i inps).head? = some (s.counter.getD i 0) := by
  cases inps <;> rfl

/-- One sample pass leaves each counter unchanged or incremented once
modulo 2^32. -/
theorem updateValues_counter_step (s : DeviceState) (binIn cntIn : List Bool) (i : Nat) :
    (updateValues s binIn cntIn).1.counter.getD i 0 = s.counter.getD i 0 ∨
    (updateValues s binIn cntIn).1.counter.getD i 0 = (s.counter.getD i 0 + 1) % 2 ^ 32 :=
  countLoop_getD_step s.lastStateCount s.counter cntIn
    (binLoop s.lastStateBinary binIn 0).2 i

/-- C5: across any run of sample cycles from a state whose counters respect the
32-bit bound, every counter evolves only by steps of exactly +1: consecutive
values in its trace are equal, incremented by one below the 32-bit bound, or
wrapped silently from the 32-bit maximum to 0.  It never decreases otherwise
and is never reset. -/
theorem counters_only_increment_mod_wrap (s : DeviceState) (i : Nat)
    (inps : List (List Bool × List Bool)) (h : ∀ x ∈ s.counter, x < 2 ^ 32) :
    List.Chain' counterStep (counterTrace s i inps) := by
  induction inps generalizing s with
  | nil => simp [counterTrace]
  | cons p rest ih =>
    have hpres : ∀ x ∈ (updateValues s p.1 p.2).1.counter, x < 2 ^ 32 :=
      countLoop_counters_lt s.lastStateCount s.counter p.2
        (binLoop s.lastStateBinary p.1 0).2 h
    simp only [counterTrace]
    refine List.chain'_cons'.mpr ⟨?_, ih _ hpres⟩
    intro y hy
    rw [counterTrace_head] at hy
    have hy2 : (updateValues s p.1 p.2).1.counter.getD i 0 = y := Option.mem_some_iff.mp hy
    rw [← hy2]
    have hstep := updateValues_counter_step s p.1 p.2 i
    have hlt : s.counter.getD i 0 < 2 ^ 32 := getD_lt_of_forall s.counter h i
    unfold counterStep
    rcases hstep with h1 | h1 <;> rw [h1] <;> omega

/-- C5 witness: from the initial state, a cycle that raises all counter lines
followed by a cycle that lowers them again produces a chained trace. -/
theorem counters_only_increment_mod_wrap_witness :
    (∀ x ∈ initState.counter, x < 2 ^ 32) ∧
    List.Chain' counterStep (counterTrace initState 0
      [(List.replicate 8 false, List.replicate 4 true),
       (List.replicate 8 false, List.replicate 4 false)]) :=
  ⟨by decide, counters_only_increment_mod_wrap initState 0 _ (by decide)⟩

/-- The fused counter loop of the source computes exactly the staged
detect-everything-then-count description of the spec. -/
theorem countLoop_staged (ls : List Int) (cs : List Nat) (vs : List Bool) (r : Nat)
    (h1 : ls.length = cs.length) (h2 : ls.length = vs.length) :
    (countLoop ls cs vs r).1 = specDetectPhase ls vs ∧
    (countLoop ls cs vs r).2.1 = specCountPhase ls cs vs := by
  induction ls generalizing cs vs r with
  | nil =>
    cases cs with
    | nil =>
      cases vs with
      | nil => simp [countLoop, specDetectPhase, specCountPhase]
      | cons v vs => simp at h2
    | cons c cs => simp at h1
  | cons l ls ih =>
    cases cs with
    | nil => simp at h1
    | cons c cs =>
      cases vs with
      | nil => simp at h2
      | cons v vs =>
        have h1t : ls.length = cs.length := by simpa using h1
        have h2t : ls.length = vs.length := by simpa using h2
        simp only [countLoop, specDetectPhase, specCountPhase]
        by_cases h : l = levelToInt v
        · have hb : countBody l c v r = (l, c, r) := by
            rw [countBody_eq]
            simp [h]
          have hspec1 : (if l ≠ levelToInt v then levelToInt v else l) = l := by simp [h]
          have hspec2 :
              (if l ≠ levelToInt v ∧ levelToInt v = HIGH then (c + 1) % 2 ^ 32 else c) = c := by
            simp [h]
          rw [hb, hspec1, hspec2]
          exact ⟨by rw [(ih cs vs r h1t h2t).1], by rw [(ih cs vs r h1t h2t).2]⟩
        · by_cases hH : levelToInt v = HIGH
          · have h3 : l ≠ HIGH := fun he => h (he.trans hH.symm)
            have hb : countBody l c v r = (levelToInt v, (c + 1) % 2 ^ 32, 2) := by
              rw [countBody_eq]
              simp [hH, h3]
            have hspec1 : (if l ≠ levelToInt v then levelToInt v else l) = levelToInt v := by
              simp [h]
            have hspec2 :
                (if l ≠ levelToInt v ∧ levelToInt v = HIGH then (c + 1) % 2 ^ 32 else c)
                  = (c + 1) % 2 ^ 32 := by
              simp [hH, h3]
            rw [hb, hspec1, hspec2]
            exact ⟨by rw [(ih cs vs 2 h1t h2t).1], by rw [(ih cs vs 2 h1t h2t).2]⟩
          · have hb : countBody l c v r = (levelToInt v, c, if r = 0 then 1 else r) := by
              rw [countBody_eq]
              simp [h, hH]
            have hspec1 : (if l ≠ levelToInt v then levelToInt v else l) = levelToInt v := by
              simp [h]
            have hspec2 :
                (if l ≠ levelToInt v ∧ levelToInt v = HIGH then (c + 1) % 2 ^ 32 else c) = c := by
              simp [hH]
            rw [hb, hspec1, hspec2]
            exact ⟨by rw [(ih cs vs _ h1t h2t).1], by rw [(ih cs vs _ h1t h2t).2]⟩

/-- C8: within one sample cycle the fused per-line loop of the source is
extensionally the staged algorithm of the spec: running edge detection for
all counter lines first and only then accumulating counters yields exactly
the stored levels and counters the code computes; and per line, the counter
increments exactly for a transition into HIGH that detection has confirmed,
with the stored level updated to the detected level. -/
theorem detection_precedes_counting (ls : List Int) (cs : List Nat) (vs : List Bool)
    (r : Nat) (l : Int) (c : Nat) (v : Bool)
    (h1 : ls.length = cs.length) (h2 : ls.length = vs.length) :
    (countLoop ls cs vs r).1 = specDetectPhase ls vs ∧
    (countLoop ls cs vs r).2.1 = specCountPhase ls cs vs ∧
    (countBody l c v r).2.1 =
      (if l ≠ levelToInt v ∧ levelToInt v = HIGH then (c + 1) % 2 ^ 32 else c) ∧
    (countBody l c v r).1 = (if l ≠ levelToInt v then levelToInt v else l) := by
  refine ⟨(countLoop_staged ls cs vs r h1 h2).1, (countLoop_staged ls cs vs r h1 h2).2, ?_, ?_⟩
  · rw [countBody_eq]
    by_cases h : l = levelToInt v
    · simp [h]
    · by_cases hH : levelToInt v = HIGH
      · have h3 : l ≠ HIGH := fun he => h (he.trans hH.symm)
        simp [h, hH, h3]
      · simp [h, hH]
  · rw [countBody_eq]
    by_cases h : l = levelToInt v
    · simp [h]
    · by_cases hH : levelToInt v = HIGH
      · have h3 : l ≠ HIGH := fun he => h (he.trans hH.symm)
        simp [h, hH, h3]
      · simp [h, hH]

/-- C8 witness: concrete two-line instance, one line rising into HIGH and one
falling, plus a concrete per-line body evaluation. -/
theorem detection_precedes_counting_witness :
    ([(-1 : Int), 1].length = [(0 : Nat), 7].length) ∧
    ([(-1 : Int), 1].length = [true, false].length) ∧
    ((countLoop [(-1 : Int), 1] [0, 7] [true, false] 0).1
        = specDetectPhase [(-1 : Int), 1] [true, false] ∧
      (countLoop [(-1 : Int), 1] [0, 7] [true, false] 0).2.1
        = specCountPhase [(-1 : Int), 1] [0, 7] [true, false] ∧
      (countBody 0 3 true 0).2.1 =
        (if (0 : Int) ≠ levelToInt true ∧ levelToInt true = HIGH
         then (3 + 1) % 2 ^ 32 else 3) ∧
      (countBody 0 3 true 0).1 =
        (if (0 : Int) ≠ levelToInt true then levelToInt true else (0 : Int))) :=
  ⟨by decide, by decide,
    detection_precedes_counting [(-1 : Int), 1] [0, 7] [true, false] 0 0 3 true
      (by decide) (by decide)⟩

/-- Bit i of a byte packed by the `state << i` accumulation is the level of
line i (0 beyond the list). -/
theorem packBits_bit (vs : List Bool) (i : Nat) :
    packBits vs / 2 ^ i % 2 = (if vs.getD i false then 1 else 0) := by
  induction vs generalizing i with
  | nil => simp [packBits]
  | cons v vs ih =>
    cases i with
    | zero =>
      simp only [packBits, pow_zero, Nat.div_one, List.getD_cons_zero]
      cases v <;> simp
    | succ i =>
      have hdiv : ((if v then 1 else 0) + 2 * packBits vs) / 2 ^ (i + 1)
          = packBits vs / 2 ^ i := by
        rw [pow_succ, mul_comm (2 ^ i) 2, ← Nat.div_div_eq_div_mul]
        congr 1
        cases v with
        | false => simp
        | true =>
          simp
          omega
      simp only [packBits, List.getD_cons_succ, hdiv]
      exact ih i

/-- Byte i*4+j of the counter register is byte 3-j (big-endian position j) of
counter 3-i. -/
theorem updtCounters_getD (s : DeviceState) (i j : Nat) (hi : i < 4) (hj : j < 4) :
    (updtCounters s).getD (i * 4 + j) 0 =
      (s.counter.getD (3 - i) 0 >>> (8 * (3 - j))) % 256 := by
  interval_cases i <;> interval_cases j <;> rfl

/-- C10: the published register layout.  The 16-byte counter register stores
counter line k in bytes (3-k)*4 .. (3-k)*4+3 in big-endian byte order: byte
(3-k)*4+j is bits 8*(3-j).. of counter k, and for a 32-bit counter value the
four bytes reassemble to it big-endian.  The 2-byte binary-input register
stores the packed counter-line levels in byte 0 and the packed binary-only
levels in byte 1, with bit i of each byte the level of line i. -/
theorem register_layout_bigendian (s : DeviceState) (binIn cntIn : List Bool)
    (k j i : Nat) (hk : k < 4) (hj : j < 4)
    (hx : (updateValues s binIn cntIn).1.counter.getD k 0 < 2 ^ 32) :
    (updtCounters (updateValues s binIn cntIn).1).length = 16 ∧
    (updtCounters (updateValues s binIn cntIn).1).getD ((3 - k) * 4 + j) 0 =
      ((updateValues s binIn cntIn).1.counter.getD k 0 >>> (8 * (3 - j))) % 256 ∧
    ((updtCounters (updateValues s binIn cntIn).1).getD ((3 - k) * 4 + 0) 0) * 2 ^ 24 +
      ((updtCounters (updateValues s binIn cntIn).1).getD ((3 - k) * 4 + 1) 0) * 2 ^ 16 +
      ((updtCounters (updateValues s binIn cntIn).1).getD ((3 - k) * 4 + 2) 0) * 2 ^ 8 +
      (updtCounters (updateValues s binIn cntIn).1).getD ((3 - k) * 4 + 3) 0 =
      (updateValues s binIn cntIn).1.counter.getD k 0 ∧
    updtBinInputs (updateValues s binIn cntIn).1 = [packBits cntIn, packBits binIn] ∧
    packBits cntIn / 2 ^ i % 2 = (if cntIn.getD i false then 1 else 0) ∧
    packBits binIn / 2 ^ i % 2 = (if binIn.getD i false then 1 else 0) := by
  have hkk : 3 - (3 - k) = k := by omega
  have hgen : ∀ j2, j2 < 4 →
      (updtCounters (updateValues s binIn cntIn).1).getD ((3 - k) * 4 + j2) 0 =
        ((updateValues s binIn cntIn).1.counter.getD k 0 >>> (8 * (3 - j2))) % 256 := by
    intro j2 hj2
    rw [updtCounters_getD _ (3 - k) j2 (by omega) hj2, hkk]
  refine ⟨?_, hgen j hj, ?_, rfl, packBits_bit cntIn i, packBits_bit binIn i⟩
  · interval_cases k <;> rfl
  · rw [hgen 0 (by omega), hgen 1 (by omega), hgen 2 (by omega), hgen 3 (by omega)]
    simp only [Nat.shiftRight_eq_div_pow]
    omega

/-- C10 witness: concrete state after one sample pass with counter lines 0 and
2 high, checked at counter line 2, byte position 1, bit 2. -/
theorem register_layout_bigendian_witness :
    (2 < 4 ∧ 1 < 4 ∧
      (updateValues initState (List.replicate 8 true)
        [true, false, true, false]).1.counter.getD 2 0 < 2 ^ 32) ∧
    ((updtCounters (updateValues initState (List.replicate 8 true)
        [true, false, true, false]).1).length = 16 ∧
      (updtCounters (updateValues initState (List.replicate 8 true)
          [true, false, true, false]).1).getD ((3 - 2) * 4 + 1) 0 =
        ((updateValues initState (List.replicate 8 true)
            [true, false, true, false]).1.counter.getD 2 0 >>> (8 * (3 - 1))) % 256 ∧
      ((updtCounters (updateValues initState (List.replicate 8 true)
          [true, false, true, false]).1).getD ((3 - 2) * 4 + 0) 0) * 2 ^ 24 +
        ((updtCounters (updateValues initState (List.replicate 8 true)
            [true, false, true, false]).1).getD ((3 - 2) * 4 + 1) 0) * 2 ^ 16 +
        ((updtCounters (updateValues initState (List.replicate 8 true)
            [true, false, true, false]).1).getD ((3 - 2) * 4 + 2) 0) * 2 ^ 8 +
        (updtCounters (updateValues initState (List.replicate 8 true)
            [true, false, true, false]).1).getD ((3 - 2) * 4 + 3) 0 =
        (updateValues initState (List.replicate 8 true)
            [true, false, true, false]).1.counter.getD 2 0 ∧
      updtBinInputs (updateValues initState (List.replicate 8 true)
          [true, false, true, false]).1 =
        [packBits [true, false, true, false], packBits (List.replicate 8 true)] ∧
      packBits [true, false, true, false] / 2 ^ 2 % 2 =
        (if ([true, false, true, false] : List Bool).getD 2 false then 1 else 0) ∧
      packBits (List.replicate 8 true) / 2 ^ 2 % 2 =
        (if (List.replicate 8 true : List Bool).getD 2 false then 1 else 0)) :=
  ⟨⟨by decide, by decide, by decide⟩,
    register_layout_bigendian initState (List.replicate 8 true) [true, false, true, false]
      2 1 2 (by decide) (by decide) (by decide)⟩

end Bininps
